import Mathlib

/-!
# Verification of deepsensor's acquisition functions and autoregressive sampler

Shallow embedding of `deepsensor/active_learning/acquisition_fns.py` and
`deepsensor/model/models.py` (the `ConvNP` class, in particular `ar_sample`,
`check_task`, `modify_task`), together with theorems settling the frozen
claims about them.

Conventions of the embedding:
* a coordinate matrix of shape `(2, N)` is represented as the list of its `N`
  columns, each column a pair of real coordinates (`Locs`);
* a value matrix of shape `(1, N)` is represented as the list of its `N`
  entries (`Vals`);
* a `Task` holds the context sets (`X_c`, `Y_c`), target sets (`X_t`, `Y_t`)
  and the `modify` tag, mirroring the fields read by the code under
  verification;
* the neural-process backend (`deepsensor.model.nps`, the `neuralprocesses`
  library, and the `ConvCNP` subclass — none of which are part of the
  verified sources) is abstracted as an `NPModel` record of opaque
  capabilities, as the spec treats the spatial predictive model as an opaque
  capability;
* numpy floating point arithmetic is idealised over `ℝ`.
-/

namespace DeepSensor

/-- A single 2-D location: one column of a `(2, N)` coordinate matrix. -/
abbrev Coord := ℝ × ℝ

/-- A coordinate matrix `(2, N)`, as the list of its columns. -/
abbrev Locs := List Coord

/-- A value matrix `(1, N)`, as the list of its entries. -/
abbrev Vals := List ℝ

/-- The `Task` data structure (`deepsensor.data.task.Task`): context
locations/values, target locations/values, and the modification tag.
The class itself lives outside the verified sources; the fields are those the
verified code reads (`task["X_c"]`, `task["Y_c"]`, `task["X_t"]`,
`task["Y_t"]`, `task["modify"]`). -/
structure Task where
  X_c : List Locs
  Y_c : List Vals
  X_t : List Locs
  Y_t : List Vals
  modify : Option String

/-- The default (empty) task, used as the out-of-range default of store
lookups. -/
def defaultTask : Task := ⟨[], [], [], [], none⟩

instance : Inhabited Task := ⟨defaultTask⟩

/-- The opaque spatial predictive model capability (the spec's
`SpatialPredictiveModel`).  `ConvNP` delegates every numeric operation to the
`neuralprocesses` backend, which is outside the verified sources, so each
operation is an abstract field:

* `meanList t`  — `model.mean(task)`: one mean vector per target set;
* `varList t`   — `model.variance(task)`: one marginal-variance vector per
  target set;
* `arSampleRaw t n` — the noiseless sample paths returned by
  `run_nps_model_ar(self.model, task, num_samples=n)` (sliced to the first
  target entry and first batch/feature dims, as in `ar_sample`): a list of
  `n` paths, each a value vector over `t.X_t[0]`;
* `predictMean t` — `self.predict(task)`: the mean over `t.X_t[0]`;
* `jointSample1 t` — `self.sample(task, n_samples=1)`: one joint sample over
  `t.X_t[0]`;
* `isConvCNP` — Modelled from the spec: whether the model is the `ConvCNP`
  class, whose "predictions are conditionally independent given context"
  (the class referenced by `type(self) is ConvCNP` is not among the verified
  sources). -/
structure NPModel where
  meanList : Task → List Vals
  varList : Task → List Vals
  arSampleRaw : Task → ℕ → List Vals
  predictMean : Task → Vals
  jointSample1 : Task → Vals
  isConvCNP : Bool

/-- `ProbabilisticModel.stddev`: `var = self.variance(dataset); return
var**0.5` — the marginal standard deviations, derived elementwise from the
variance. -/
noncomputable def NPModel.stddevList (m : NPModel) (t : Task) : List Vals :=
  (m.varList t).map (fun v => v.map Real.sqrt)

/-! ## Seeded random generator

`Random.__init__` stores `np.random.default_rng(seed)`; `__call__` draws
`X_s.shape[1]` uniform variates, advancing the generator state.  The numpy
generator is an external library; it is abstracted here as a concrete
deterministic congruential generator producing rationals in `[0, 1)`: all the
verified claims about `Random` concern only that the stream is a
deterministic function of the seed and of how many variates were drawn. -/

/-- Abstract PRNG state (seeded deterministic generator). -/
abbrev RngState := ℕ

/-- One step of the abstract generator. -/
def rngNext (s : RngState) : RngState := (1103515245 * s + 12345) % 2147483648

/-- Modelled from the spec: `np.random.default_rng(seed)` — the initial
generator state derived deterministically from the seed. -/
def rngInit (seed : ℕ) : RngState := rngNext seed

/-- Modelled from the spec: `rng.random(n)` — draw `n` uniform variates in
`[0, 1)`, returning them together with the advanced generator state. -/
def rngRandom : RngState → ℕ → List ℚ × RngState
  | s, 0 => ([], s)
  | s, n + 1 =>
    let s' := rngNext s
    let (vs, sf) := rngRandom s' n
    ((s' : ℚ) / 2147483648 :: vs, sf)

/-! ## Acquisition functions (`acquisition_fns.py`) -/

/-- The state of a `Random` acquisition-function object: just the stored
generator (`self.rng`).  Its constructor takes a seed and no model. -/
structure RandomAcq where
  rng : RngState

/-- `Random.__init__(seed)`: `self.rng = np.random.default_rng(seed)`. -/
def RandomAcq.init (seed : ℕ) : RandomAcq := ⟨rngInit seed⟩

/-- `Random.__call__(task, X_s)`: `return self.rng.random(X_s.shape[1])`.
The task argument is received but never read; the call also advances the
stored generator, returned as the updated object state. -/
def RandomAcq.call (self : RandomAcq) (task : Task) (X_s : Locs) :
    List ℚ × RandomAcq :=
  ((rngRandom self.rng X_s.length).1, ⟨(rngRandom self.rng X_s.length).2⟩)

/-- Euclidean distance between two 2-D locations — one entry of
`np.linalg.norm(X_s[..., None] - X_c[..., None, :], axis=0)`. -/
noncomputable def eucDist (p q : Coord) : ℝ :=
  Real.sqrt ((p.1 - q.1) ^ 2 + (p.2 - q.2) ^ 2)

/-- Row-wise minimum, `dists_all.min(axis=1)` on one row (numpy raises on an
empty row; the verified call sites only reach this with a non-empty row, and
`[]` is mapped to `0` here). -/
noncomputable def rowMin : List ℝ → ℝ
  | [] => 0
  | x :: xs => xs.foldl min x

/-- `ContextDist.__call__(task, X_s)`.  With an empty chosen context set the
code writes `dist = np.zeros(N); dist[0] = 1` (an `IndexError`, hence `none`,
when there are no candidates); otherwise it returns the per-candidate minimum
over the pairwise Euclidean distance matrix.  The object stores no model,
only `context_set_idx`. -/
noncomputable def ContextDist.call (context_set_idx : ℕ) (task : Task)
    (X_s : Locs) : Option (List ℝ) :=
  let X_c := task.X_c.getD context_set_idx []
  if X_c.isEmpty then
    if X_s.isEmpty then none
    else some ((1 : ℝ) :: List.replicate (X_s.length - 1) 0)
  else
    some (X_s.map (fun s => rowMin (X_c.map (fun c => eucDist s c))))

/-- `Stddev.__call__(task, X_s, target_set_idx)`: deep-copy the task, set its
target set to the search points (`task["X_t"] = X_s` replaces the whole
target list with the single candidate matrix), and return
`self.model.stddev(task)[target_set_idx]`. -/
noncomputable def Stddev.call (m : NPModel) (task : Task) (X_s : Locs)
    (target_set_idx : ℕ) : Vals :=
  let task' : Task := { task with X_t := [X_s] }
  (m.stddevList task').getD target_set_idx []

/-- `np.ndarray.max` over a value vector (`task["Y_c"][idx].max()`); numpy
raises on an empty array, the verified call sites are guarded by hypotheses,
and `[]` is mapped to `0` here. -/
def listMax : List ℝ → ℝ
  | [] => 0
  | x :: xs => xs.foldl max x

/-- The standard normal probability density `scipy.stats.norm.pdf`. -/
noncomputable def normPdf (z : ℝ) : ℝ :=
  Real.exp (-(z ^ 2) / 2) / Real.sqrt (2 * Real.pi)

/-- The standard normal cumulative distribution `scipy.stats.norm.cdf`,
as the integral of the density. -/
noncomputable def normCdf (z : ℝ) : ℝ :=
  ∫ t in Set.Iic z, normPdf t

/-- `ExpectedImprovement.__call__(task, X_s, target_set_idx)` with the stored
`self.context_set_idx`: deep-copy the task and set `task["X_t"] = X_s`; take
`mean = self.model.mean(task)[target_set_idx]`,
`best_target_value = task["Y_c"][self.context_set_idx].max()`,
`stddev = self.model.stddev(task)[self.context_set_idx]`,
`Z = (mean - best) / stddev` and return
`stddev * (mean - best) * norm.cdf(Z) + stddev * norm.pdf(Z)` elementwise. -/
noncomputable def ExpectedImprovement.call (m : NPModel)
    (context_set_idx : ℕ) (task : Task) (X_s : Locs)
    (target_set_idx : ℕ) : Vals :=
  let task' : Task := { task with X_t := [X_s] }
  let mean := (m.meanList task').getD target_set_idx []
  let best := listMax (task'.Y_c.getD context_set_idx [])
  let stddev := (m.stddevList task').getD context_set_idx []
  List.zipWith
    (fun μ σ =>
      σ * (μ - best) * normCdf ((μ - best) / σ) + σ * normPdf ((μ - best) / σ))
    mean stddev

/-- The claim's (and spec §4.1's) reading of Expected Improvement, for
comparison with `ExpectedImprovement.call`: identical except that the
standard deviation is taken at the *chosen target set's* index. -/
noncomputable def ExpectedImprovement.specFormula (m : NPModel)
    (context_set_idx : ℕ) (task : Task) (X_s : Locs)
    (target_set_idx : ℕ) : Vals :=
  let task' : Task := { task with X_t := [X_s] }
  let mean := (m.meanList task').getD target_set_idx []
  let best := listMax (task'.Y_c.getD context_set_idx [])
  let stddev := (m.stddevList task').getD target_set_idx []
  List.zipWith
    (fun μ σ =>
      σ * (μ - best) * normCdf ((μ - best) / σ) + σ * normPdf ((μ - best) / σ))
    mean stddev

/-! ## The `ConvNP` task hooks (`models.py`) -/

/-- Modelled from the spec: `ConvNP.modify_task` calls
`task.modify(array_modify_fn, modify_flag="NPS")` — `Task.modify` lives
outside the verified sources; per spec §3 it returns a modified *copy*
("operations that need a modified task … must produce a deep copy, never
mutate the caller's task") that is "transformed into model-native form" and
marked with the modification tag.  The numeric part of `array_modify_fn`
(batch dimension, NaN masking, tensor conversion) is backend representation
only and is abstracted as the identity on values; the observable effect kept
here is the `"NPS"` tag. -/
def modify_task (t : Task) : Task := { t with modify := some "NPS" }

/-- `ConvNP.check_task`: with no modification tag the task is transformed by
`modify_task`; with tag `"NPS"` it is returned unchanged; any other tag
raises `ValueError(f"Task has been modified for {task['modify']}.")`. -/
def check_task (t : Task) : Except String Task :=
  match t.modify with
  | none => .ok (modify_task t)
  | some tag =>
    if tag = "NPS" then .ok t
    else .error ("Task has been modified for " ++ tag ++ ".")

/-! ## `ConvNP.ar_sample` (`models.py`) -/

/-- numpy strided slicing `l[::k]`: every `k`-th element of `l` starting at
index `0`. -/
def everyKth {α : Type} (k : ℕ) : List α → List α
  | [] => []
  | a :: as => a :: everyKth k (as.drop (k - 1))
termination_by l => l.length
decreasing_by simp; omega

/-- `xt.reshape(-1, d, d)`: view the flat (row-major) list of `d * d` target
columns as `d` rows of `d` columns. -/
def toRows (d : ℕ) (l : Locs) : List Locs :=
  (List.range d).map (fun i => (l.drop (i * d)).take d)

/-- `xt_2d[..., ::k, ::k].reshape(2, -1)`: take every `k`-th row and, in each
kept row, every `k`-th column, then re-flatten row-major. -/
def gridSubsample (d k : ℕ) (xt : Locs) : Locs :=
  ((everyKth k (toRows d xt)).map (everyKth k)).flatten

/-- The subsampling step of `ar_sample` when `ar_subsample_factor > 1`:
`ndim_2d = np.sqrt(xt.shape[-1])`; if the target count is a perfect square,
subsample every `k`-th location along both axes of the square grid, else take
every `k`-th location of the flattened ordering. -/
def subsampleXt (xt : Locs) (k : ℕ) : Locs :=
  let d := Nat.sqrt xt.length
  if d * d = xt.length then gridSubsample d k xt else everyKth k xt

/-- `task_arsample["X_t"][0] = xt`: replace the first target-location set
(mirrors the in-place item assignment performed on the deep copy). -/
def setXt0 (t : Task) (locs : Locs) : Task := { t with X_t := t.X_t.set 0 locs }

/-- The first step of `ar_sample`: `task_arsample` is a deep copy of the
task with `task_arsample["X_t"][0]` replaced by `X_target_AR` when given,
else by the subsampled targets when `ar_subsample_factor > 1`, else left as a
plain deep copy. -/
def arsampleTaskOf (t : Task) (X_target_AR : Option Locs)
    (ar_subsample_factor : ℕ) : Task :=
  match X_target_AR with
  | some locs => setXt0 t locs
  | none =>
    if 1 < ar_subsample_factor then
      setXt0 t (subsampleXt (t.X_t.getD 0 []) ar_subsample_factor)
    else t

/-- The AR location subset `ar_sample` ends up drawing AR samples over
(`task_arsample["X_t"][0]`): an explicit `X_target_AR` takes priority, else
subsampling by `ar_subsample_factor > 1`, else the full first target set. -/
def arSubsetLocs (t : Task) (X_target_AR : Option Locs)
    (ar_subsample_factor : ℕ) : Locs :=
  match X_target_AR with
  | some locs => locs
  | none =>
    if 1 < ar_subsample_factor then subsampleXt (t.X_t.getD 0 []) ar_subsample_factor
    else t.X_t.getD 0 []

/-- The body of the infill loop of `ar_sample`: `task_with_sample` is a deep
copy of the (checked) task whose first context set is extended with the AR
subset locations `arXt` and the path's sampled values `sample`. -/
def extendContext0 (t : Task) (arXt : Locs) (sample : Vals) : Task :=
  { t with
    X_c := t.X_c.set 0 (t.X_c.getD 0 [] ++ arXt)
    Y_c := t.Y_c.set 0 (t.Y_c.getD 0 [] ++ sample) }

/-- `ConvNP.ar_sample(task, n_samples, X_target_AR, ar_subsample_factor)`.

The three subset branches build `task_arsample` from a deep copy of the
task; both tasks then go through `check_task`;
`run_nps_model_ar(self.model, task_arsample, num_samples=n_samples)` yields
the noiseless sample paths (`m.arSampleRaw`); when the AR subset was
restricted (`ar_subsample_factor > 1 or X_target_AR is not None`) each path
is infilled by evaluating the model — `self.predict` for the `ConvCNP`
class, `self.sample(…, 1)` otherwise — on a task copy whose first context
set is extended with the AR locations and that path's values, and the
per-path results are stacked in path order; otherwise the raw paths are
returned directly. -/
def ar_sample (m : NPModel) (task0 : Task) (n_samples : ℕ)
    (X_target_AR : Option Locs) (ar_subsample_factor : ℕ) :
    Except String (List Vals) := do
  let task_arsample ← check_task (arsampleTaskOf task0 X_target_AR ar_subsample_factor)
  let task ← check_task task0
  let noiseless_samples := m.arSampleRaw task_arsample n_samples
  if 1 < ar_subsample_factor ∨ X_target_AR.isSome then
    let full_samples := noiseless_samples.map (fun sample =>
      let task_with_sample :=
        extendContext0 task (task_arsample.X_t.getD 0 []) sample
      if m.isConvCNP then m.predictMean task_with_sample
      else m.jointSample1 task_with_sample)
    return full_samples
  else
    return noiseless_samples

/-! ## Store-instrumented embedding (object identity)

The non-mutation claim is about Python object identity: the caller's `Task`
object must be structurally unchanged after a call, which holds exactly
because every in-place assignment in the verified code targets a
`copy.deepcopy` (or a fresh task returned by `Task.modify`), never the
caller's object.  To make that checkable, the relevant calls are re-embedded
over an explicit object store: tasks live in a `Store`, a reference is an
index, `deepcopy` allocates a fresh reference, and each in-place item
assignment of the source is a store write to the reference the source
mutates.  The theorems then show the caller's reference is never written. -/

/-- The object store: one `Task` per allocated reference. -/
abbrev Store := List Task

/-- Dereference (out-of-range reads give the default task). -/
def getT (σ : Store) (r : ℕ) : Task := σ.getD r defaultTask

/-- In-place mutation of the object behind reference `r`. -/
def setT (σ : Store) (r : ℕ) (t : Task) : Store := σ.set r t

/-- Allocation (`copy.deepcopy`, or a constructor): a fresh reference. -/
def allocT (σ : Store) (t : Task) : Store × ℕ := (σ ++ [t], σ.length)

/-- `ConvNP.check_task` over the store: an untagged task is replaced by the
fresh task object returned by `Task.modify` (the caller's object is not
written); a `"NPS"`-tagged task is passed through as the same reference. -/
def check_taskH (σ : Store) (r : ℕ) : Store × Except String ℕ :=
  match (getT σ r).modify with
  | none =>
    let (σ', r') := allocT σ (modify_task (getT σ r))
    (σ', .ok r')
  | some tag =>
    if tag = "NPS" then (σ, .ok r)
    else (σ, .error ("Task has been modified for " ++ tag ++ "."))

/-- One iteration's store effect in the infill loop of `ar_sample`:
`task_with_sample = copy.deepcopy(task)` allocates a fresh reference, and
the two in-place context assignments (concatenating the AR locations `arXt`
and the path's values `sample`, read from the checked task at `r_task`)
write that fresh reference. -/
def loopStepStore (σ : Store) (r_task : ℕ) (arXt : Locs) (sample : Vals) :
    Store :=
  let σ1 := (allocT σ (getT σ r_task)).1
  let r_tws := (allocT σ (getT σ r_task)).2
  let σ2 := setT σ1 r_tws
    { getT σ1 r_tws with
      X_c := (getT σ1 r_tws).X_c.set 0
        ((getT σ1 r_task).X_c.getD 0 [] ++ arXt) }
  setT σ2 r_tws
    { getT σ2 r_tws with
      Y_c := (getT σ2 r_tws).Y_c.set 0
        ((getT σ2 r_task).Y_c.getD 0 [] ++ sample) }

/-- The infill loop of `ar_sample` over the store: for each sample path,
the store effect of `loopStepStore` happens, then the model is evaluated on
the written copy. -/
def arInfillLoopH (m : NPModel) (σ : Store) (r_task : ℕ) (arXt : Locs) :
    List Vals → Store × List Vals
  | [] => (σ, [])
  | sample :: rest =>
    let σ3 := loopStepStore σ r_task arXt sample
    let r_tws := (allocT σ (getT σ r_task)).2
    let pred :=
      if m.isConvCNP then m.predictMean (getT σ3 r_tws)
      else m.jointSample1 (getT σ3 r_tws)
    ((arInfillLoopH m σ3 r_task arXt rest).1,
      pred :: (arInfillLoopH m σ3 r_task arXt rest).2)

/-- The store after the `task_arsample` deep copy and (when applicable) its
`X_t[0]` assignment — the first lines of `ar_sample` over the store; the
copy's reference is `(allocT σ (getT σ r_task)).2`, i.e. `σ.length`. -/
def arsampleStoreOf (σ : Store) (r_task : ℕ) (X_target_AR : Option Locs)
    (ar_subsample_factor : ℕ) : Store :=
  let σ1 := (allocT σ (getT σ r_task)).1
  let r_ars := (allocT σ (getT σ r_task)).2
  match X_target_AR with
  | some locs => setT σ1 r_ars (setXt0 (getT σ1 r_ars) locs)
  | none =>
    if 1 < ar_subsample_factor then
      setT σ1 r_ars (setXt0 (getT σ1 r_ars)
        (subsampleXt ((getT σ1 r_task).X_t.getD 0 []) ar_subsample_factor))
    else σ1

/-- The remainder of `ar_sample` over the store, after `task_arsample` has
been built: both `check_task` calls, then either the raw paths or the
per-path infill loop. -/
def ar_sampleH_rest (m : NPModel) (σ2 : Store) (r_task r_ars : ℕ) (n : ℕ)
    (X_target_AR : Option Locs) (ar_subsample_factor : ℕ) :
    Store × Except String (List Vals) :=
  match (check_taskH σ2 r_ars).2 with
  | .error e => ((check_taskH σ2 r_ars).1, .error e)
  | .ok r_ars2 =>
    let σ3 := (check_taskH σ2 r_ars).1
    match (check_taskH σ3 r_task).2 with
    | .error e => ((check_taskH σ3 r_task).1, .error e)
    | .ok r_task2 =>
      let σ4 := (check_taskH σ3 r_task).1
      let noiseless := m.arSampleRaw (getT σ4 r_ars2) n
      if 1 < ar_subsample_factor ∨ X_target_AR.isSome then
        ((arInfillLoopH m σ4 r_task2 ((getT σ4 r_ars2).X_t.getD 0 [])
            noiseless).1,
          .ok (arInfillLoopH m σ4 r_task2 ((getT σ4 r_ars2).X_t.getD 0 [])
            noiseless).2)
      else (σ4, .ok noiseless)

/-- `ConvNP.ar_sample` over the store: `task_arsample` is a deep copy
(allocated), its `X_t[0]` assignment writes the copy's reference, both tasks
are checked, and the infill loop (when reached) works on per-path deep
copies.  Mirrors `ar_sample` line by line; only object identity is made
explicit. -/
def ar_sampleH (m : NPModel) (σ : Store) (r_task : ℕ) (n_samples : ℕ)
    (X_target_AR : Option Locs) (ar_subsample_factor : ℕ) :
    Store × Except String (List Vals) :=
  ar_sampleH_rest m
    (arsampleStoreOf σ r_task X_target_AR ar_subsample_factor) r_task
    ((allocT σ (getT σ r_task)).2) n_samples X_target_AR ar_subsample_factor

/-- `Stddev.__call__` over the store: the deep copy is allocated, the
`task["X_t"] = X_s` assignment writes the copy's reference, and the model
reads the copy. -/
noncomputable def Stddev_callH (m : NPModel) (σ : Store) (r : ℕ) (X_s : Locs)
    (target_set_idx : ℕ) : Store × Vals :=
  let σ1 := (allocT σ (getT σ r)).1
  let rc := (allocT σ (getT σ r)).2
  let σ2 := setT σ1 rc { getT σ1 rc with X_t := [X_s] }
  (σ2, (m.stddevList (getT σ2 rc)).getD target_set_idx [])

/-- `ExpectedImprovement.__call__` over the store: same copy-then-assign
pattern, then the mean/best/stddev/EI computation reads the copy. -/
noncomputable def ExpectedImprovement_callH (m : NPModel)
    (context_set_idx : ℕ) (σ : Store) (r : ℕ) (X_s : Locs)
    (target_set_idx : ℕ) : Store × Vals :=
  let σ1 := (allocT σ (getT σ r)).1
  let rc := (allocT σ (getT σ r)).2
  let σ2 := setT σ1 rc { getT σ1 rc with X_t := [X_s] }
  let task2 := getT σ2 rc
  let mean := (m.meanList task2).getD target_set_idx []
  let best := listMax (task2.Y_c.getD context_set_idx [])
  let stddev := (m.stddevList task2).getD context_set_idx []
  (σ2, List.zipWith
    (fun μ σv =>
      σv * (μ - best) * normCdf ((μ - best) / σv) +
        σv * normPdf ((μ - best) / σv))
    mean stddev)

/-- `MeanStddev.__call__` over the store: a scalar acquisition function; it
performs no copy and no write, only model reads. -/
noncomputable def MeanStddev_callH (m : NPModel) (σ : Store) (r : ℕ)
    (target_set_idx : ℕ) : Store × ℝ :=
  let v := (m.stddevList (getT σ r)).getD target_set_idx []
  (σ, v.sum / v.length)

/-! ## Helper lemmas -/

lemma getD_map_of_lt {α β : Type} (f : α → β) (l : List α) (i : ℕ) (d : β)
    (d' : α) (h : i < l.length) : (l.map f).getD i d = f (l.getD i d') := by
  have hi : l[i]? = some l[i] := List.getElem?_eq_getElem h
  simp [List.getD_eq_getElem?_getD, List.getElem?_map, hi]

lemma getD_drop {α : Type} (l : List α) (i j : ℕ) (d : α) :
    (l.drop i).getD j d = l.getD (i + j) d := by
  simp [List.getD_eq_getElem?_getD, List.getElem?_drop]

lemma rngRandom_length (s : RngState) (n : ℕ) : (rngRandom s n).1.length = n := by
  induction n generalizing s with
  | zero => rfl
  | succ n ih => simp [rngRandom, ih]

lemma foldl_min_le_init (l : List ℝ) (a : ℝ) : l.foldl min a ≤ a := by
  induction l generalizing a with
  | nil => simp
  | cons x xs ih =>
    simpa only [List.foldl_cons] using le_trans (ih (min a x)) (min_le_left a x)

lemma foldl_min_le_mem (l : List ℝ) (a : ℝ) : ∀ x ∈ l, l.foldl min a ≤ x := by
  induction l generalizing a with
  | nil => simp
  | cons y ys ih =>
    intro x hx
    rcases List.mem_cons.mp hx with h | h
    · subst h
      simpa only [List.foldl_cons] using
        le_trans (foldl_min_le_init ys (min a x)) (min_le_right a x)
    · simpa only [List.foldl_cons] using ih (min a y) x h

lemma foldl_min_mem (l : List ℝ) (a : ℝ) :
    l.foldl min a = a ∨ l.foldl min a ∈ l := by
  induction l generalizing a with
  | nil => left; rfl
  | cons y ys ih =>
    rcases ih (min a y) with h | h
    · rcases le_total a y with hay | hya
      · left; simp only [List.foldl_cons]; rw [h, min_eq_left hay]
      · right; simp only [List.foldl_cons]; rw [h, min_eq_right hya]
        exact List.mem_cons_self y ys
    · right; simp only [List.foldl_cons]; exact List.mem_cons_of_mem y h

lemma rowMin_le (l : List ℝ) : ∀ x ∈ l, rowMin l ≤ x := by
  cases l with
  | nil => simp
  | cons x xs =>
    intro y hy
    rcases List.mem_cons.mp hy with h | h
    · subst h; exact foldl_min_le_init xs y
    · exact foldl_min_le_mem xs x y h

lemma rowMin_mem (l : List ℝ) (h : l ≠ []) : rowMin l ∈ l := by
  cases l with
  | nil => exact absurd rfl h
  | cons x xs =>
    rcases foldl_min_mem xs x with h' | h'
    · rw [rowMin, h']; exact List.mem_cons_self x xs
    · rw [rowMin]; exact List.mem_cons_of_mem x h'

/-! ## Claim theorems -/

/-- C8: for a fixed seed, a freshly constructed `Random` acquisition function
applied to any task and any candidate set of a given size produces the same
score vector of that size — the scores depend only on the seed-derived
generator state and the candidate count. -/
theorem random_fixed_seed_reproducible (seed : ℕ) (t t' : Task)
    (Xs Xs' : Locs) (h : Xs.length = Xs'.length) :
    ((RandomAcq.init seed).call t Xs).1 = ((RandomAcq.init seed).call t' Xs').1 ∧
    ((RandomAcq.init seed).call t Xs).1.length = Xs.length := by
  constructor
  · simp only [RandomAcq.call, h]
  · simpa only [RandomAcq.call] using rngRandom_length (RandomAcq.init seed).rng Xs.length

/-- Witness for C8: `Random(seed=42)` on two independent instances, two
different tasks and two different 4-point candidate sets yields identical
4-vectors. -/
theorem random_fixed_seed_reproducible_w :
    ([((0:ℝ),(0:ℝ)), (0,1), (1,0), (1,1)] : Locs).length =
      ([((2:ℝ),(0:ℝ)), (0,3), (4,0), (0,5)] : Locs).length ∧
    ((RandomAcq.init 42).call defaultTask
        [((0:ℝ),(0:ℝ)), (0,1), (1,0), (1,1)]).1 =
      ((RandomAcq.init 42).call ⟨[[((9:ℝ),(9:ℝ))]], [[3]], [], [], none⟩
        [((2:ℝ),(0:ℝ)), (0,3), (4,0), (0,5)]).1 :=
  ⟨rfl,
   (random_fixed_seed_reproducible 42 defaultTask
      ⟨[[((9:ℝ),(9:ℝ))]], [[3]], [], [], none⟩
      [((0:ℝ),(0:ℝ)), (0,1), (1,0), (1,1)]
      [((2:ℝ),(0:ℝ)), (0,3), (4,0), (0,5)] rfl).1⟩

/-- C9: `check_task` keeps the at-most-one-modification-tag invariant: an
untagged task is transformed into model-native form (tagged `"NPS"`), a task
already tagged `"NPS"` passes through unchanged, and a task carrying any
other modification tag raises `ValueError`. -/
theorem check_task_tag_invariant (t : Task) :
    (t.modify = none →
      check_task t = .ok (modify_task t) ∧
        (modify_task t).modify = some "NPS") ∧
    (t.modify = some "NPS" → check_task t = .ok t) ∧
    (∀ tag, t.modify = some tag → tag ≠ "NPS" →
      check_task t = .error ("Task has been modified for " ++ tag ++ ".")) := by
  refine ⟨?_, ?_, ?_⟩
  · intro h; unfold check_task; rw [h]; exact ⟨rfl, rfl⟩
  · intro h; unfold check_task; rw [h]; simp
  · intro tag htag hne; unfold check_task; rw [htag]; simp [hne]

/-- Witness for C9: the three tag cases at concrete tasks. -/
theorem check_task_tag_invariant_w :
    check_task defaultTask = .ok (modify_task defaultTask) ∧
    check_task ⟨[], [], [], [], some "NPS"⟩ = .ok ⟨[], [], [], [], some "NPS"⟩ ∧
    check_task ⟨[], [], [], [], some "TF"⟩ =
      .error ("Task has been modified for " ++ "TF" ++ ".") :=
  ⟨((check_task_tag_invariant defaultTask).1 rfl).1,
   (check_task_tag_invariant ⟨[], [], [], [], some "NPS"⟩).2.1 rfl,
   (check_task_tag_invariant ⟨[], [], [], [], some "TF"⟩).2.2 "TF" rfl (by decide)⟩

/-- C10: `Random` and `ContextDist` are model-free — their embeddings take no
model capability at all (so no capability error can arise), `Random`'s score
vector is the same for any two task arguments with the same generator state
and candidate set, and `ContextDist` reads nothing of the task beyond its
context locations. -/
theorem random_contextdist_model_free :
    (∀ (self : RandomAcq) (t t' : Task) (Xs : Locs),
      self.call t Xs = self.call t' Xs) ∧
    (∀ (csi : ℕ) (t t' : Task) (Xs : Locs), t.X_c = t'.X_c →
      ContextDist.call csi t Xs = ContextDist.call csi t' Xs) := by
  constructor
  · intro self t t' Xs; rfl
  · intro csi t t' Xs h; simp only [ContextDist.call, h]

/-- Witness for C10 at concrete tasks differing everywhere but in `X_c`. -/
theorem random_contextdist_model_free_w :
    ((⟨5⟩ : RandomAcq).call defaultTask [((0:ℝ),(0:ℝ))] =
      (⟨5⟩ : RandomAcq).call ⟨[], [], [[((1:ℝ),(1:ℝ))]], [[2]], some "NPS"⟩
        [((0:ℝ),(0:ℝ))]) ∧
    (⟨[], [], [], [], none⟩ : Task).X_c =
      (⟨[], [], [[((1:ℝ),(1:ℝ))]], [[2]], some "NPS"⟩ : Task).X_c ∧
    ContextDist.call 0 ⟨[], [], [], [], none⟩ [((0:ℝ),(0:ℝ))] =
      ContextDist.call 0 ⟨[], [], [[((1:ℝ),(1:ℝ))]], [[2]], some "NPS"⟩
        [((0:ℝ),(0:ℝ))] :=
  ⟨random_contextdist_model_free.1 ⟨5⟩ defaultTask
      ⟨[], [], [[((1:ℝ),(1:ℝ))]], [[2]], some "NPS"⟩ [((0:ℝ),(0:ℝ))],
   rfl,
   random_contextdist_model_free.2 0 ⟨[], [], [], [], none⟩
      ⟨[], [], [[((1:ℝ),(1:ℝ))]], [[2]], some "NPS"⟩ [((0:ℝ),(0:ℝ))] rfl⟩

lemma contextDist_call_of_empty (csi : ℕ) (t : Task) (Xs : Locs)
    (hnil : t.X_c.getD csi [] = []) (hXs : Xs ≠ []) :
    ContextDist.call csi t Xs =
      some ((1 : ℝ) :: List.replicate (Xs.length - 1) 0) := by
  unfold ContextDist.call
  rw [hnil]
  simp [hXs]

lemma contextDist_call_of_nonempty (csi : ℕ) (t : Task) (Xs : Locs)
    (hne : t.X_c.getD csi [] ≠ []) :
    ContextDist.call csi t Xs =
      some (Xs.map (fun s => rowMin ((t.X_c.getD csi []).map
        (fun c => eucDist s c)))) := by
  obtain ⟨a, as, h⟩ : ∃ a as, t.X_c.getD csi [] = a :: as := by
    cases h : t.X_c.getD csi [] with
    | nil => exact absurd h hne
    | cons a as => exact ⟨a, as, rfl⟩
  unfold ContextDist.call
  rw [h]
  simp

/-- C5: with an empty chosen context set, `ContextDist` on `N ≥ 1`
candidates returns a length-`N` vector whose unique maximal entry sits at
index `0` (value `1`, all others `0`); with a non-empty context set it
returns, per candidate, the Euclidean distance to the nearest context point
(a lower bound on all of them, attained at one of them). -/
theorem contextDist_empty_and_distance (csi : ℕ) (t : Task) (Xs : Locs) :
    ((t.X_c.getD csi []).isEmpty = true → 1 ≤ Xs.length →
      ∃ scores, ContextDist.call csi t Xs = some scores ∧
        scores.length = Xs.length ∧ scores.getD 0 0 = 1 ∧
        ∀ i, 0 < i → i < Xs.length → scores.getD i 0 < scores.getD 0 0) ∧
    ((t.X_c.getD csi []).isEmpty = false →
      ∃ scores, ContextDist.call csi t Xs = some scores ∧
        scores.length = Xs.length ∧
        ∀ i, i < Xs.length →
          (∀ c ∈ t.X_c.getD csi [],
            scores.getD i 0 ≤ eucDist (Xs.getD i ((0:ℝ), (0:ℝ))) c) ∧
          ∃ c ∈ t.X_c.getD csi [],
            scores.getD i 0 = eucDist (Xs.getD i ((0:ℝ), (0:ℝ))) c) := by
  constructor
  · intro hempty hN
    have hXs : Xs ≠ [] := by
      cases Xs with
      | nil => simp at hN
      | cons a as => simp
    have hnil : t.X_c.getD csi [] = [] := List.isEmpty_iff.mp hempty
    refine ⟨(1 : ℝ) :: List.replicate (Xs.length - 1) 0, ?_, ?_, rfl, ?_⟩
    · exact contextDist_call_of_empty csi t Xs hnil hXs
    · simp only [List.length_cons, List.length_replicate]; omega
    · intro i hi hiN
      cases i with
      | zero => omega
      | succ j =>
        simp only [List.getD_cons_succ, List.getD_cons_zero]
        have hz : (List.replicate (Xs.length - 1) (0:ℝ)).getD j 0 = 0 := by
          simp only [List.getD_eq_getElem?_getD, List.getElem?_replicate]
          split <;> simp
        rw [hz]; norm_num
  · intro hne
    have hX : t.X_c.getD csi [] ≠ [] := by
      intro h; rw [h] at hne; simp at hne
    refine ⟨Xs.map (fun s => rowMin ((t.X_c.getD csi []).map
        (fun c => eucDist s c))), ?_, by simp, ?_⟩
    · exact contextDist_call_of_nonempty csi t Xs hX
    · intro i hi
      rw [getD_map_of_lt _ _ i _ ((0:ℝ), (0:ℝ)) hi]
      constructor
      · intro c hc
        exact rowMin_le _ _ (List.mem_map_of_mem _ hc)
      · have hmem := rowMin_mem ((t.X_c.getD csi []).map
          (fun c => eucDist (Xs.getD i ((0:ℝ), (0:ℝ))) c))
          (by simpa using hX)
        obtain ⟨c, hc, he⟩ := List.mem_map.mp hmem
        exact ⟨c, hc, he.symm⟩

/-- The 4 concrete candidate grid points of the spec's `ContextDist`
scenario. -/
def Xs4 : Locs := [(0, 0), (0, 1), (1, 0), (1, 1)]

/-- A task whose first (chosen) context set is empty. -/
def Tempty : Task := ⟨[[]], [[]], [], [], none⟩

/-- A task with one context point at the origin. -/
def Tctx : Task := ⟨[[(0, 0)]], [[1]], [], [], none⟩

/-- Witness for C5: both branches at concrete inputs, including the spec's
concrete `[1, 0, 0, 0]` output on 4 candidates with no context. -/
theorem contextDist_empty_and_distance_w :
    (Tempty.X_c.getD 0 []).isEmpty = true ∧ 1 ≤ Xs4.length ∧
    ContextDist.call 0 Tempty Xs4 = some [1, 0, 0, 0] ∧
    (∃ scores, ContextDist.call 0 Tempty Xs4 = some scores ∧
      scores.length = Xs4.length ∧ scores.getD 0 0 = 1 ∧
      ∀ i, 0 < i → i < Xs4.length → scores.getD i 0 < scores.getD 0 0) ∧
    (Tctx.X_c.getD 0 []).isEmpty = false ∧
    (∃ scores, ContextDist.call 0 Tctx Xs4 = some scores ∧
      scores.length = Xs4.length ∧
      ∀ i, i < Xs4.length →
        (∀ c ∈ Tctx.X_c.getD 0 [],
          scores.getD i 0 ≤ eucDist (Xs4.getD i ((0:ℝ), (0:ℝ))) c) ∧
        ∃ c ∈ Tctx.X_c.getD 0 [],
          scores.getD i 0 = eucDist (Xs4.getD i ((0:ℝ), (0:ℝ))) c) :=
  ⟨rfl, by decide, rfl,
   (contextDist_empty_and_distance 0 Tempty Xs4).1 rfl (by decide),
   rfl,
   (contextDist_empty_and_distance 0 Tctx Xs4).2 rfl⟩

/-- A concrete toy model for witnesses: every capability returns constants of
the shape the model interface promises. -/
def M0 : NPModel where
  meanList := fun t => t.X_t.map (fun ls => List.replicate ls.length 0)
  varList := fun t => t.X_t.map (fun ls => List.replicate ls.length 1)
  arSampleRaw := fun t n =>
    List.replicate n (List.replicate (t.X_t.getD 0 []).length 0)
  predictMean := fun t => List.replicate (t.X_t.getD 0 []).length 0
  jointSample1 := fun t => List.replicate (t.X_t.getD 0 []).length 0
  isConvCNP := true

/-- A concrete task: one context point, two target locations. -/
def T2 : Task := ⟨[[(0, 0)]], [[1]], [[(0, 0), (1, 0)]], [[0, 0]], none⟩

/-- C2: with `ar_subsample_factor = 1` and no `X_target_AR`, `ar_sample`
returns exactly the raw noiseless sample paths of the model's native AR/joint
sampling primitive over the full target set of the (checked) task — the
infill branch is not executed, and the result consists of `n_samples` paths
over the task's own target locations. -/
theorem ar_sample_full_subset_equiv (m : NPModel) (t : Task) (n : ℕ)
    (htag : t.modify = none ∨ t.modify = some "NPS")
    (harlen : ∀ t', (m.arSampleRaw t' n).length = n)
    (hpaths : ∀ t' s, s ∈ m.arSampleRaw t' n →
      s.length = (t'.X_t.getD 0 []).length) :
    ∃ t', check_task t = .ok t' ∧
      t'.X_t = t.X_t ∧ t'.X_c = t.X_c ∧ t'.Y_c = t.Y_c ∧
      ar_sample m t n none 1 = .ok (m.arSampleRaw t' n) ∧
      (m.arSampleRaw t' n).length = n ∧
      ∀ s ∈ m.arSampleRaw t' n, s.length = (t.X_t.getD 0 []).length := by
  have hars : arsampleTaskOf t none 1 = t := by simp [arsampleTaskOf]
  rcases htag with h | h
  · refine ⟨modify_task t, ?_, rfl, rfl, rfl, ?_, harlen _, ?_⟩
    · unfold check_task; rw [h]
    · simp only [ar_sample, hars, check_task, h]; rfl
    · intro s hs; exact hpaths (modify_task t) s hs
  · refine ⟨t, ?_, rfl, rfl, rfl, ?_, harlen _, ?_⟩
    · unfold check_task; rw [h]; rfl
    · simp only [ar_sample, hars, check_task, h]; rfl
    · intro s hs; exact hpaths t s hs

/-- Witness for C2 at the concrete model and task, `n_samples = 2`. -/
theorem ar_sample_full_subset_equiv_w :
    T2.modify = none ∧
    (∃ t', check_task T2 = .ok t' ∧
      t'.X_t = T2.X_t ∧ t'.X_c = T2.X_c ∧ t'.Y_c = T2.Y_c ∧
      ar_sample M0 T2 2 none 1 = .ok (M0.arSampleRaw t' 2) ∧
      (M0.arSampleRaw t' 2).length = 2 ∧
      ∀ s ∈ M0.arSampleRaw t' 2, s.length = (T2.X_t.getD 0 []).length) :=
  ⟨rfl,
   ar_sample_full_subset_equiv M0 T2 2 (Or.inl rfl)
     (by intro t'; simp [M0])
     (by
       intro t' s hs
       simp only [M0] at hs
       rw [List.eq_of_mem_replicate hs]
       simp)⟩

/-- Reduction of `ar_sample` once both `check_task` calls succeed. -/
lemma ar_sample_eq_of_checks (m : NPModel) (t : Task) (n : ℕ)
    (xtar : Option Locs) (k : ℕ) (tAr tChk : Task)
    (h1 : check_task (arsampleTaskOf t xtar k) = .ok tAr)
    (h2 : check_task t = .ok tChk) :
    ar_sample m t n xtar k =
      .ok (if 1 < k ∨ xtar.isSome then
             (m.arSampleRaw tAr n).map (fun sample =>
               let tws := extendContext0 tChk (tAr.X_t.getD 0 []) sample
               if m.isConvCNP then m.predictMean tws else m.jointSample1 tws)
           else m.arSampleRaw tAr n) := by
  unfold ar_sample
  rw [h1, h2]
  by_cases hc : 1 < k ∨ xtar.isSome
  · simp only [if_pos hc]; rfl
  · simp only [if_neg hc]; rfl

/-- The counterexample task and model for the restriction-validation claim:
`(5, 5)` is not among `T2`'s two target locations, yet `ar_sample` with
`X_target_AR = [(5, 5)]` succeeds. -/
theorem ar_sample_no_validation_cex :
    (((5:ℝ), (5:ℝ)) ∉ T2.X_t.getD 0 []) ∧
    (ar_sample M0 T2 1 (some [((5:ℝ), (5:ℝ))]) 1).isOk = true := by
  constructor
  · norm_num [T2]
  · rfl

/-- Amended C6: `ar_sample` performs no validation of `X_target_AR`
whatsoever — for every coordinate matrix (subset of the targets or not), the
AR target set is simply replaced by it and the sampler proceeds through the
model calls and returns a result, provided only that the task's own
modification tag is acceptable. -/
theorem ar_sample_accepts_any_restriction (m : NPModel) (t : Task) (n : ℕ)
    (locs : Locs) (k : ℕ)
    (htag : t.modify = none ∨ t.modify = some "NPS") (hX : t.X_t ≠ []) :
    ∃ tAr v, check_task (arsampleTaskOf t (some locs) k) = .ok tAr ∧
      tAr.X_t.getD 0 [] = locs ∧
      ar_sample m t n (some locs) k = .ok v := by
  obtain ⟨x, xs, hxt⟩ : ∃ x xs, t.X_t = x :: xs := by
    cases h : t.X_t with
    | nil => exact absurd h hX
    | cons x xs => exact ⟨x, xs, rfl⟩
  have hset : (setXt0 t locs).X_t.getD 0 [] = locs := by
    simp [setXt0, hxt]
  rcases htag with h | h
  · have h1 : check_task (arsampleTaskOf t (some locs) k) =
        .ok (modify_task (arsampleTaskOf t (some locs) k)) := by
      unfold check_task
      rw [show (arsampleTaskOf t (some locs) k).modify = none from h]
    have h2 : check_task t = .ok (modify_task t) := by
      unfold check_task; rw [h]
    exact ⟨_, _, h1, hset, ar_sample_eq_of_checks m t n (some locs) k _ _ h1 h2⟩
  · have h1 : check_task (arsampleTaskOf t (some locs) k) =
        .ok (arsampleTaskOf t (some locs) k) := by
      unfold check_task
      rw [show (arsampleTaskOf t (some locs) k).modify = some "NPS" from h]
      rfl
    have h2 : check_task t = .ok t := by
      unfold check_task; rw [h]; rfl
    exact ⟨_, _, h1, hset, ar_sample_eq_of_checks m t n (some locs) k _ _ h1 h2⟩

/-- Witness for the amended C6 at a restriction that is disjoint from the
target set. -/
theorem ar_sample_accepts_any_restriction_w :
    T2.modify = none ∧ T2.X_t ≠ [] ∧
    (∃ tAr v,
      check_task (arsampleTaskOf T2 (some [((5:ℝ), (5:ℝ))]) 1) = .ok tAr ∧
      tAr.X_t.getD 0 [] = [((5:ℝ), (5:ℝ))] ∧
      ar_sample M0 T2 3 (some [((5:ℝ), (5:ℝ))]) 1 = .ok v) :=
  ⟨rfl, by simp [T2],
   ar_sample_accepts_any_restriction M0 T2 3 [((5:ℝ), (5:ℝ))] 1
     (Or.inl rfl) (by simp [T2])⟩

lemma getD_zipWith_of_lt {α β γ : Type} (f : α → β → γ) (l1 : List α)
    (l2 : List β) (i : ℕ) (d1 : α) (d2 : β) (d : γ)
    (h1 : i < l1.length) (h2 : i < l2.length) :
    (List.zipWith f l1 l2).getD i d = f (l1.getD i d1) (l2.getD i d2) := by
  induction l1 generalizing l2 i with
  | nil => simp at h1
  | cons a as ih =>
    cases l2 with
    | nil => simp at h2
    | cons b bs =>
      cases i with
      | zero => simp
      | succ j =>
        simp only [List.zipWith_cons_cons, List.getD_cons_succ]
        exact ih bs j (by simpa using h1) (by simpa using h2)

/-- A model whose per-target-set statistics differ between set indices `0`
and `1`: mean `[5]` on set `0`, variance `[1]` on set `0` and `[4]` on
set `1`. -/
def M1 : NPModel where
  meanList := fun _ => [[5], []]
  varList := fun _ => [[1], [4]]
  arSampleRaw := fun _ _ => []
  predictMean := fun _ => []
  jointSample1 := fun _ => []
  isConvCNP := true

/-- A task with two context sets; the second (the chosen one) has best value
`5`, equal to the model mean, so the `Φ` term of EI vanishes. -/
def T3 : Task := ⟨[[(0, 0)], [(1, 1)]], [[0], [5]], [], [], none⟩

/-- Counterexample to C3: with `context_set_idx = 1` and
`target_set_idx = 0` the code's Expected Improvement (whose `σ` comes from
index `context_set_idx` of the model's stddev output) differs from the
claim's formula (whose `σ` is the chosen target set's). -/
theorem expectedImprovement_target_idx_cex :
    ExpectedImprovement.call M1 1 T3 [((0:ℝ), (0:ℝ))] 0 ≠
      ExpectedImprovement.specFormula M1 1 T3 [((0:ℝ), (0:ℝ))] 0 := by
  intro hEq
  have h4 : Real.sqrt 4 = 2 := by
    rw [show (4:ℝ) = 2 ^ 2 by norm_num, Real.sqrt_sq (by norm_num : (0:ℝ) ≤ 2)]
  have h1 : Real.sqrt 1 = 1 := Real.sqrt_one
  have hpdf : 0 < normPdf 0 := by
    unfold normPdf
    exact div_pos (Real.exp_pos _) (Real.sqrt_pos.mpr (by positivity))
  simp only [ExpectedImprovement.call, ExpectedImprovement.specFormula,
    NPModel.stddevList, M1, T3, List.map_cons, List.map_nil,
    List.getD_cons_zero, List.getD_cons_succ, List.zipWith_cons_cons,
    List.zipWith_nil_left, listMax, List.foldl_cons, List.foldl_nil,
    h4, h1, List.cons.injEq, and_true] at hEq
  norm_num at hEq
  nlinarith [hpdf]

/-- Amended C3: Expected Improvement evaluates, on a task copy whose target
set is the candidates, `μ` at index `target_set_idx` of the model means but
`σ` at index `context_set_idx` of the model stddevs (not the target set's),
takes `y*` as the maximum of the chosen context set's values, and returns
`σ·(μ − y*)·Φ(Z) + σ·φ(Z)` with `Z = (μ − y*)/σ`, one score per position of
the zipped mean/stddev vectors. -/
theorem expectedImprovement_context_idx_stddev (m : NPModel) (csi tsi : ℕ)
    (t : Task) (Xs : Locs) (i : ℕ) :
    (ExpectedImprovement.call m csi t Xs tsi).length =
      min ((m.meanList { t with X_t := [Xs] }).getD tsi []).length
          ((m.stddevList { t with X_t := [Xs] }).getD csi []).length ∧
    (i < (ExpectedImprovement.call m csi t Xs tsi).length →
      (ExpectedImprovement.call m csi t Xs tsi).getD i 0 =
        ((m.stddevList { t with X_t := [Xs] }).getD csi []).getD i 0 *
            (((m.meanList { t with X_t := [Xs] }).getD tsi []).getD i 0 -
              listMax (t.Y_c.getD csi [])) *
            normCdf ((((m.meanList { t with X_t := [Xs] }).getD tsi []).getD i 0 -
                listMax (t.Y_c.getD csi [])) /
              ((m.stddevList { t with X_t := [Xs] }).getD csi []).getD i 0) +
          ((m.stddevList { t with X_t := [Xs] }).getD csi []).getD i 0 *
            normPdf ((((m.meanList { t with X_t := [Xs] }).getD tsi []).getD i 0 -
                listMax (t.Y_c.getD csi [])) /
              ((m.stddevList { t with X_t := [Xs] }).getD csi []).getD i 0)) := by
  constructor
  · simp [ExpectedImprovement.call]
  · intro hi
    simp only [ExpectedImprovement.call, List.length_zipWith, lt_min_iff] at hi
    simp only [ExpectedImprovement.call]
    rw [getD_zipWith_of_lt _ _ _ i 0 0 0 hi.1 hi.2]

/-- Witness for the amended C3 at the counterexample's concrete inputs. -/
theorem expectedImprovement_context_idx_stddev_w :
    (ExpectedImprovement.call M1 1 T3 [((0:ℝ), (0:ℝ))] 0).length =
      min ((M1.meanList { T3 with X_t := [[((0:ℝ), (0:ℝ))]] }).getD 0 []).length
          ((M1.stddevList { T3 with X_t := [[((0:ℝ), (0:ℝ))]] }).getD 1 []).length ∧
    (0 < (ExpectedImprovement.call M1 1 T3 [((0:ℝ), (0:ℝ))] 0).length →
      (ExpectedImprovement.call M1 1 T3 [((0:ℝ), (0:ℝ))] 0).getD 0 0 =
        ((M1.stddevList { T3 with X_t := [[((0:ℝ), (0:ℝ))]] }).getD 1 []).getD 0 0 *
            (((M1.meanList { T3 with X_t := [[((0:ℝ), (0:ℝ))]] }).getD 0 []).getD 0 0 -
              listMax (T3.Y_c.getD 1 [])) *
            normCdf ((((M1.meanList { T3 with X_t := [[((0:ℝ), (0:ℝ))]] }).getD 0 []).getD 0 0 -
                listMax (T3.Y_c.getD 1 [])) /
              ((M1.stddevList { T3 with X_t := [[((0:ℝ), (0:ℝ))]] }).getD 1 []).getD 0 0) +
          ((M1.stddevList { T3 with X_t := [[((0:ℝ), (0:ℝ))]] }).getD 1 []).getD 0 0 *
            normPdf ((((M1.meanList { T3 with X_t := [[((0:ℝ), (0:ℝ))]] }).getD 0 []).getD 0 0 -
                listMax (T3.Y_c.getD 1 [])) /
              ((M1.stddevList { T3 with X_t := [[((0:ℝ), (0:ℝ))]] }).getD 1 []).getD 0 0)) :=
  expectedImprovement_context_idx_stddev M1 1 0 T3 [((0:ℝ), (0:ℝ))] 0

/-! ### Characterisation of the strided-slice subsampling -/

lemma everyKth_nil {α : Type} (k : ℕ) : everyKth k ([] : List α) = [] := by
  rw [everyKth]

lemma everyKth_cons {α : Type} (k : ℕ) (a : α) (as : List α) :
    everyKth k (a :: as) = a :: everyKth k (as.drop (k - 1)) := by
  rw [everyKth]

lemma everyKth_length {α : Type} (k : ℕ) (hk : 1 ≤ k) (l : List α) :
    (everyKth k l).length = (l.length + k - 1) / k := by
  have H : ∀ (n : ℕ) (l : List α), l.length ≤ n →
      (everyKth k l).length = (l.length + k - 1) / k := by
    intro n
    induction n with
    | zero =>
      intro l hl
      have : l = [] := List.length_eq_zero.mp (Nat.le_zero.mp hl)
      subst this
      rw [everyKth_nil]
      simp [Nat.div_eq_of_lt (show k - 1 < k by omega)]
    | succ n ih =>
      intro l hl
      cases l with
      | nil =>
        rw [everyKth_nil]
        simp [Nat.div_eq_of_lt (show k - 1 < k by omega)]
      | cons a as =>
        rw [everyKth_cons]
        simp only [List.length_cons]
        rw [ih (as.drop (k - 1)) (by simp [List.length_drop] at hl ⊢; omega)]
        simp only [List.length_drop]
        rcases le_or_lt (k - 1) as.length with hcase | hcase
        · have e1 : as.length - (k - 1) + k - 1 = as.length := by omega
          have e3 : as.length + 1 + k - 1 = as.length + k := by omega
          rw [e1, e3, Nat.add_div_right _ (by omega : 0 < k)]
        · have e1 : as.length - (k - 1) + k - 1 = k - 1 := by omega
          have e2 : (k - 1) / k = 0 := Nat.div_eq_of_lt (by omega)
          have e3 : as.length + 1 + k - 1 = as.length + k := by omega
          rw [e1, e2, e3, Nat.add_div_right _ (by omega : 0 < k),
            Nat.div_eq_of_lt (by omega)]
  exact H l.length l le_rfl

lemma everyKth_getD {α : Type} (k : ℕ) (hk : 1 ≤ k) (d : α) (l : List α)
    (m : ℕ) : (everyKth k l).getD m d = l.getD (m * k) d := by
  have H : ∀ (n : ℕ) (l : List α), l.length ≤ n → ∀ m,
      (everyKth k l).getD m d = l.getD (m * k) d := by
    intro n
    induction n with
    | zero =>
      intro l hl m
      have : l = [] := List.length_eq_zero.mp (Nat.le_zero.mp hl)
      subst this
      rw [everyKth_nil]
      simp
    | succ n ih =>
      intro l hl m
      cases l with
      | nil => rw [everyKth_nil]; simp
      | cons a as =>
        rw [everyKth_cons]
        cases m with
        | zero => simp
        | succ j =>
          simp only [List.getD_cons_succ]
          rw [ih (as.drop (k - 1)) (by simp [List.length_drop] at hl ⊢; omega) j,
            getD_drop]
          have hmul : (j + 1) * k = j * k + k := by ring
          have he : (j + 1) * k = (k - 1 + j * k) + 1 := by omega
          rw [he, List.getD_cons_succ]
  exact H l.length l le_rfl m

lemma everyKth_subset {α : Type} (k : ℕ) (l : List α) :
    ∀ x ∈ everyKth k l, x ∈ l := by
  have H : ∀ (n : ℕ) (l : List α), l.length ≤ n →
      ∀ x ∈ everyKth k l, x ∈ l := by
    intro n
    induction n with
    | zero =>
      intro l hl x hx
      have : l = [] := List.length_eq_zero.mp (Nat.le_zero.mp hl)
      subst this
      rw [everyKth_nil] at hx
      exact hx
    | succ n ih =>
      intro l hl x hx
      cases l with
      | nil => rw [everyKth_nil] at hx; exact hx
      | cons a as =>
        rw [everyKth_cons] at hx
        rcases List.mem_cons.mp hx with h | h
        · exact h ▸ List.mem_cons_self a as
        · exact List.mem_cons_of_mem a
            (List.mem_of_mem_drop
              (ih (as.drop (k - 1))
                (by simp [List.length_drop] at hl ⊢; omega) x h))
  exact H l.length l le_rfl

lemma getD_take_of_lt {α : Type} (l : List α) (t j : ℕ) (d : α) (h : j < t) :
    (l.take t).getD j d = l.getD j d := by
  simp [List.getD_eq_getElem?_getD, List.getElem?_take, h]

lemma getD_append_of_lt {α : Type} (l1 l2 : List α) (j : ℕ) (d : α)
    (h : j < l1.length) : (l1 ++ l2).getD j d = l1.getD j d := by
  simp [List.getD_eq_getElem?_getD, List.getElem?_append, h]

lemma getD_append_add {α : Type} (l1 l2 : List α) (j : ℕ) (d : α) :
    (l1 ++ l2).getD (l1.length + j) d = l2.getD j d := by
  simp [List.getD_eq_getElem?_getD,
    List.getElem?_append_right (Nat.le_add_right l1.length j)]

lemma toRows_length (d : ℕ) (l : Locs) : (toRows d l).length = d := by
  simp [toRows]

lemma toRows_getD (d : ℕ) (l : Locs) (i : ℕ) (hi : i < d) :
    (toRows d l).getD i [] = (l.drop (i * d)).take d := by
  unfold toRows
  rw [getD_map_of_lt _ _ i _ 0 (by simpa using hi)]
  have : (List.range d).getD i 0 = i := by
    simp [List.getD_eq_getElem?_getD, List.getElem?_range, hi]
  rw [this]

lemma toRows_row_length (d : ℕ) (l : Locs) (hlen : l.length = d * d)
    (row : Locs) (hrow : row ∈ toRows d l) : row.length = d := by
  unfold toRows at hrow
  obtain ⟨i, hi, rfl⟩ := List.mem_map.mp hrow
  have hid : i < d := List.mem_range.mp hi
  simp only [List.length_take, List.length_drop, hlen]
  have h2 : (i + 1) * d = i * d + d := by ring
  have h3 : (i + 1) * d ≤ d * d := Nat.mul_le_mul_right d hid
  omega

lemma flatten_length_uniform {α : Type} (c : ℕ) (L : List (List α))
    (h : ∀ l ∈ L, l.length = c) : L.flatten.length = L.length * c := by
  induction L with
  | nil => simp
  | cons l ls ih =>
    simp only [List.flatten_cons, List.length_append, List.length_cons,
      h l (List.mem_cons_self l ls),
      ih (fun x hx => h x (List.mem_cons_of_mem l hx))]
    ring

lemma flatten_getD_uniform {α : Type} (c : ℕ) (L : List (List α))
    (h : ∀ l ∈ L, l.length = c) (i j : ℕ) (hi : i < L.length) (hj : j < c)
    (d : α) : L.flatten.getD (i * c + j) d = (L.getD i []).getD j d := by
  induction L generalizing i with
  | nil => simp at hi
  | cons l ls ih =>
    have hl : l.length = c := h l (List.mem_cons_self l ls)
    cases i with
    | zero =>
      simp only [Nat.zero_mul, Nat.zero_add, List.flatten_cons,
        List.getD_cons_zero]
      exact getD_append_of_lt l ls.flatten j d (hl ▸ hj)
    | succ i' =>
      simp only [List.flatten_cons, List.getD_cons_succ]
      have he : (i' + 1) * c + j = l.length + (i' * c + j) := by
        rw [hl]; ring
      rw [he, getD_append_add]
      exact ih (fun x hx => h x (List.mem_cons_of_mem l hx)) i'
        (by simpa using hi)

/-- Full characterisation of the square-grid subsampling branch: on a
`d × d` grid, `gridSubsample d k` keeps a `⌈d/k⌉ × ⌈d/k⌉` grid, whose
`(m1, m2)` entry is the original entry at grid position `(m1·k, m2·k)`. -/
lemma gridSubsample_spec (d k : ℕ) (hk : 1 ≤ k) (xt : Locs)
    (hlen : xt.length = d * d) :
    (gridSubsample d k xt).length = ((d + k - 1) / k) * ((d + k - 1) / k) ∧
    ∀ m1 m2, m1 < (d + k - 1) / k → m2 < (d + k - 1) / k →
      (gridSubsample d k xt).getD (m1 * ((d + k - 1) / k) + m2) ((0:ℝ), (0:ℝ)) =
        xt.getD ((m1 * k) * d + (m2 * k)) ((0:ℝ), (0:ℝ)) := by
  have hrowsLen : (toRows d xt).length = d := toRows_length d xt
  have hoLen : (everyKth k (toRows d xt)).length = (d + k - 1) / k := by
    rw [everyKth_length k hk, hrowsLen]
  have hUniform : ∀ l ∈ (everyKth k (toRows d xt)).map (everyKth k),
      l.length = (d + k - 1) / k := by
    intro l hl
    obtain ⟨row, hrow, rfl⟩ := List.mem_map.mp hl
    rw [everyKth_length k hk,
      toRows_row_length d xt hlen row (everyKth_subset k _ row hrow)]
  have hstride : ∀ m, m < (d + k - 1) / k → m * k < d := by
    intro m hm
    have h0 : 0 < (d + k - 1) / k := by omega
    have hd1 : 1 ≤ d := by
      by_contra hd
      have : d = 0 := by omega
      subst this
      rw [Nat.div_eq_of_lt (by omega)] at hm
      omega
    have hrk : ((d + k - 1) / k) * k ≤ d + k - 1 := Nat.div_mul_le_self _ k
    have hmk : (m + 1) * k ≤ ((d + k - 1) / k) * k :=
      Nat.mul_le_mul_right k hm
    have hexp : (m + 1) * k = m * k + k := by ring
    omega
  constructor
  · unfold gridSubsample
    rw [flatten_length_uniform _ _ hUniform, List.length_map, hoLen]
  · intro m1 m2 hm1 hm2
    unfold gridSubsample
    rw [flatten_getD_uniform _ _ hUniform m1 m2
        (by rw [List.length_map, hoLen]; exact hm1) hm2]
    rw [getD_map_of_lt _ _ m1 _ [] (by rw [hoLen]; exact hm1)]
    rw [everyKth_getD k hk [] (toRows d xt) m1]
    rw [toRows_getD d xt (m1 * k) (hstride m1 hm1)]
    rw [everyKth_getD k hk ((0:ℝ), (0:ℝ)) _ m2]
    rw [getD_take_of_lt _ d (m2 * k) _ (hstride m2 hm2)]
    rw [getD_drop]

lemma arsampleTaskOf_modify (t : Task) (xtar : Option Locs) (k : ℕ) :
    (arsampleTaskOf t xtar k).modify = t.modify := by
  cases xtar with
  | some locs => rfl
  | none => by_cases hk : 1 < k <;> simp [arsampleTaskOf, setXt0, hk]

lemma arsampleTaskOf_Xt0 (t : Task) (xtar : Option Locs) (k : ℕ)
    (hX : t.X_t ≠ []) :
    (arsampleTaskOf t xtar k).X_t.getD 0 [] = arSubsetLocs t xtar k := by
  obtain ⟨x, xs, hxs⟩ : ∃ x xs, t.X_t = x :: xs := by
    cases h : t.X_t with
    | nil => exact absurd h hX
    | cons x xs => exact ⟨x, xs, rfl⟩
  cases xtar with
  | some locs => simp [arsampleTaskOf, arSubsetLocs, setXt0, hxs]
  | none =>
    by_cases hk : 1 < k
    · simp [arsampleTaskOf, arSubsetLocs, setXt0, hxs, hk]
    · simp [arsampleTaskOf, arSubsetLocs, setXt0, hxs, hk]

lemma getD_set_zero {α : Type} (l : List α) (v : α) (d : α) (h : l ≠ []) :
    (l.set 0 v).getD 0 d = v := by
  cases l with
  | nil => exact absurd rfl h
  | cons x xs => simp

/-- C7: the AR location subset is a pure function of the task,
`X_target_AR` and `ar_subsample_factor` (deterministic by construction):
an explicit restriction takes priority; with factor `k ≤ 1` and no
restriction the subset is the full first target set; with `k > 1` and a
perfect-square target count the subset keeps every `k`-th location along
both axes of the square grid; otherwise every `k`-th location of the
flattened ordering.  The second conjunct ties the selection to the AR task
actually built by `ar_sample`. -/
theorem ar_subset_selection_deterministic (t : Task) (k : ℕ) (xt : Locs)
    (hxt : t.X_t.getD 0 [] = xt) :
    (∀ locs, arSubsetLocs t (some locs) k = locs) ∧
    (∀ xtar, t.X_t ≠ [] →
      (arsampleTaskOf t xtar k).X_t.getD 0 [] = arSubsetLocs t xtar k) ∧
    (k ≤ 1 → arSubsetLocs t none k = xt) ∧
    (1 < k → arSubsetLocs t none k = subsampleXt xt k) ∧
    (1 ≤ k → Nat.sqrt xt.length * Nat.sqrt xt.length = xt.length →
      (subsampleXt xt k).length =
        ((Nat.sqrt xt.length + k - 1) / k) * ((Nat.sqrt xt.length + k - 1) / k) ∧
      ∀ m1 m2, m1 < (Nat.sqrt xt.length + k - 1) / k →
        m2 < (Nat.sqrt xt.length + k - 1) / k →
        (subsampleXt xt k).getD (m1 * ((Nat.sqrt xt.length + k - 1) / k) + m2)
            ((0:ℝ), (0:ℝ)) =
          xt.getD ((m1 * k) * Nat.sqrt xt.length + (m2 * k)) ((0:ℝ), (0:ℝ))) ∧
    (1 ≤ k → Nat.sqrt xt.length * Nat.sqrt xt.length ≠ xt.length →
      (subsampleXt xt k).length = (xt.length + k - 1) / k ∧
      ∀ i, (subsampleXt xt k).getD i ((0:ℝ), (0:ℝ)) =
        xt.getD (i * k) ((0:ℝ), (0:ℝ))) := by
  subst hxt
  refine ⟨fun locs => rfl, fun xtar hX => arsampleTaskOf_Xt0 t xtar k hX, ?_, ?_, ?_, ?_⟩
  · intro hk
    unfold arSubsetLocs
    rw [if_neg (by omega)]
  · intro hk
    unfold arSubsetLocs
    rw [if_pos hk]
  · intro hk hsq
    unfold subsampleXt
    rw [if_pos hsq]
    exact gridSubsample_spec (Nat.sqrt (t.X_t.getD 0 []).length) k hk
      (t.X_t.getD 0 []) hsq.symm
  · intro hk hsq
    unfold subsampleXt
    rw [if_neg hsq]
    exact ⟨everyKth_length k hk _, fun i => everyKth_getD k hk _ _ i⟩

/-- The 3×3 grid of target locations used by the C7 witness. -/
def Xt9 : Locs :=
  [(0, 0), (0, 1), (0, 2), (1, 0), (1, 1), (1, 2), (2, 0), (2, 1), (2, 2)]

/-- A task whose first target set is the 3×3 grid. -/
def T9 : Task := ⟨[[(0, 0)]], [[1]], [Xt9], [List.replicate 9 0], none⟩

/-- A task whose first target set has a non-square location count (2). -/
def Tflat : Task := ⟨[[(0, 0)]], [[1]], [[(0, 0), (7, 7)]], [[0, 0]], none⟩

/-- Witness for C7: the grid branch on a 3×3 grid with `k = 2` and the
flattened branch on a 2-location target set with `k = 2`. -/
theorem ar_subset_selection_deterministic_w :
    T9.X_t.getD 0 [] = Xt9 ∧ T9.X_t ≠ [] ∧ (1 ≤ 2) ∧
    Nat.sqrt Xt9.length * Nat.sqrt Xt9.length = Xt9.length ∧
    (arsampleTaskOf T9 none 2).X_t.getD 0 [] = arSubsetLocs T9 none 2 ∧
    (1 < 2 → arSubsetLocs T9 none 2 = subsampleXt Xt9 2) ∧
    ((subsampleXt Xt9 2).length =
      ((Nat.sqrt Xt9.length + 2 - 1) / 2) * ((Nat.sqrt Xt9.length + 2 - 1) / 2) ∧
     ∀ m1 m2, m1 < (Nat.sqrt Xt9.length + 2 - 1) / 2 →
       m2 < (Nat.sqrt Xt9.length + 2 - 1) / 2 →
       (subsampleXt Xt9 2).getD (m1 * ((Nat.sqrt Xt9.length + 2 - 1) / 2) + m2)
           ((0:ℝ), (0:ℝ)) =
         Xt9.getD ((m1 * 2) * Nat.sqrt Xt9.length + (m2 * 2)) ((0:ℝ), (0:ℝ))) ∧
    Nat.sqrt (Tflat.X_t.getD 0 []).length * Nat.sqrt (Tflat.X_t.getD 0 []).length ≠
      (Tflat.X_t.getD 0 []).length ∧
    ((subsampleXt (Tflat.X_t.getD 0 []) 2).length =
      ((Tflat.X_t.getD 0 []).length + 2 - 1) / 2 ∧
     ∀ i, (subsampleXt (Tflat.X_t.getD 0 []) 2).getD i ((0:ℝ), (0:ℝ)) =
       (Tflat.X_t.getD 0 []).getD (i * 2) ((0:ℝ), (0:ℝ))) :=
  ⟨rfl, by simp [T9], by decide, by norm_num [Xt9],
   (ar_subset_selection_deterministic T9 2 Xt9 rfl).2.1 none (by simp [T9]),
   fun h => (ar_subset_selection_deterministic T9 2 Xt9 rfl).2.2.2.1 h,
   (ar_subset_selection_deterministic T9 2 Xt9 rfl).2.2.2.2.1 (by decide)
     (by norm_num [Xt9]),
   by norm_num [Tflat],
   (ar_subset_selection_deterministic Tflat 2 (Tflat.X_t.getD 0 []) rfl).2.2.2.2.2
     (by decide) (by norm_num [Tflat])⟩

/-- C1: whenever the AR subset is restricted (explicit `X_target_AR`, or
`ar_subsample_factor > 1`), `ar_sample` builds, for each of the `n_samples`
noiseless paths in draw order, a task copy whose first context set is the
original context extended with the AR subset locations and that path's
values, evaluates the model at the original full target set on it — direct
mean prediction for the conditionally-independent `ConvCNP` class, a joint
sample otherwise — and stacks one infilled output per path, giving shape
`[n_samples, n_target_locations]`. -/
theorem ar_sample_infill_spec (m : NPModel) (t : Task) (n : ℕ)
    (xtar : Option Locs) (k : ℕ)
    (hbranch : 1 < k ∨ xtar.isSome)
    (htag : t.modify = none ∨ t.modify = some "NPS")
    (hX : t.X_t ≠ []) (hXc : t.X_c ≠ []) (hYc : t.Y_c ≠ [])
    (harlen : ∀ t', (m.arSampleRaw t' n).length = n)
    (hpredlen : ∀ t', (m.predictMean t').length = (t'.X_t.getD 0 []).length)
    (hjointlen : ∀ t', (m.jointSample1 t').length = (t'.X_t.getD 0 []).length) :
    ∃ tChk tAr res,
      check_task t = .ok tChk ∧
      check_task (arsampleTaskOf t xtar k) = .ok tAr ∧
      tChk.X_t = t.X_t ∧
      tAr.X_t.getD 0 [] = arSubsetLocs t xtar k ∧
      ar_sample m t n xtar k = .ok res ∧
      res.length = n ∧
      ∀ i, i < n →
        res.getD i [] =
          (if m.isConvCNP then
             m.predictMean (extendContext0 tChk (arSubsetLocs t xtar k)
               ((m.arSampleRaw tAr n).getD i []))
           else
             m.jointSample1 (extendContext0 tChk (arSubsetLocs t xtar k)
               ((m.arSampleRaw tAr n).getD i []))) ∧
        (extendContext0 tChk (arSubsetLocs t xtar k)
            ((m.arSampleRaw tAr n).getD i [])).X_t = t.X_t ∧
        (extendContext0 tChk (arSubsetLocs t xtar k)
            ((m.arSampleRaw tAr n).getD i [])).X_c.getD 0 [] =
          t.X_c.getD 0 [] ++ arSubsetLocs t xtar k ∧
        (extendContext0 tChk (arSubsetLocs t xtar k)
            ((m.arSampleRaw tAr n).getD i [])).Y_c.getD 0 [] =
          t.Y_c.getD 0 [] ++ (m.arSampleRaw tAr n).getD i [] ∧
        (res.getD i []).length = (t.X_t.getD 0 []).length := by
  have hXt0 : (arsampleTaskOf t xtar k).X_t.getD 0 [] = arSubsetLocs t xtar k :=
    arsampleTaskOf_Xt0 t xtar k hX
  -- the two `check_task` results, by tag case
  obtain ⟨tChk, tAr, h2, h1, hcXt, hcXc, hcYc, haXt0⟩ :
      ∃ tChk tAr, check_task t = .ok tChk ∧
        check_task (arsampleTaskOf t xtar k) = .ok tAr ∧
        tChk.X_t = t.X_t ∧ tChk.X_c = t.X_c ∧ tChk.Y_c = t.Y_c ∧
        tAr.X_t.getD 0 [] = arSubsetLocs t xtar k := by
    rcases htag with h | h
    · refine ⟨modify_task t, modify_task (arsampleTaskOf t xtar k),
        ?_, ?_, rfl, rfl, rfl, hXt0⟩
      · unfold check_task; rw [h]
      · unfold check_task
        rw [show (arsampleTaskOf t xtar k).modify = none from
          (arsampleTaskOf_modify t xtar k).trans h]
    · refine ⟨t, arsampleTaskOf t xtar k, ?_, ?_, rfl, rfl, rfl, hXt0⟩
      · unfold check_task; rw [h]; rfl
      · unfold check_task
        rw [show (arsampleTaskOf t xtar k).modify = some "NPS" from
          (arsampleTaskOf_modify t xtar k).trans h]
        rfl
  have hrun := ar_sample_eq_of_checks m t n xtar k tAr tChk h1 h2
  rw [if_pos hbranch, haXt0] at hrun
  refine ⟨tChk, tAr, _, h2, h1, hcXt, haXt0, hrun, ?_, ?_⟩
  · rw [List.length_map, harlen tAr]
  · intro i hi
    have hilt : i < (m.arSampleRaw tAr n).length := by rw [harlen tAr]; exact hi
    have hresi : ((m.arSampleRaw tAr n).map (fun sample =>
        let tws := extendContext0 tChk (arSubsetLocs t xtar k) sample
        if m.isConvCNP then m.predictMean tws
        else m.jointSample1 tws)).getD i [] =
        (let tws := extendContext0 tChk (arSubsetLocs t xtar k)
            ((m.arSampleRaw tAr n).getD i [])
         if m.isConvCNP then m.predictMean tws else m.jointSample1 tws) :=
      getD_map_of_lt _ _ i _ [] hilt
    have hXcext : (extendContext0 tChk (arSubsetLocs t xtar k)
        ((m.arSampleRaw tAr n).getD i [])).X_c.getD 0 [] =
        t.X_c.getD 0 [] ++ arSubsetLocs t xtar k := by
      unfold extendContext0
      show (tChk.X_c.set 0 (tChk.X_c.getD 0 [] ++ _)).getD 0 [] = _
      rw [getD_set_zero _ _ _ (by rw [hcXc]; exact hXc), hcXc]
    have hYcext : (extendContext0 tChk (arSubsetLocs t xtar k)
        ((m.arSampleRaw tAr n).getD i [])).Y_c.getD 0 [] =
        t.Y_c.getD 0 [] ++ (m.arSampleRaw tAr n).getD i [] := by
      unfold extendContext0
      show (tChk.Y_c.set 0 (tChk.Y_c.getD 0 [] ++ _)).getD 0 [] = _
      rw [getD_set_zero _ _ _ (by rw [hcYc]; exact hYc), hcYc]
    have hXtext : (extendContext0 tChk (arSubsetLocs t xtar k)
        ((m.arSampleRaw tAr n).getD i [])).X_t = t.X_t := hcXt
    refine ⟨hresi, hXtext, hXcext, hYcext, ?_⟩
    rw [hresi]
    by_cases hcnp : m.isConvCNP = true
    · simp only [if_pos hcnp]
      rw [hpredlen, hXtext]
    · simp only [if_neg hcnp]
      rw [hjointlen, hXtext]

/-- Witness for C1: the concrete model on the 3×3-grid task with
`ar_subsample_factor = 2` and two sample paths. -/
theorem ar_sample_infill_spec_w :
    (1 < 2 ∨ (none : Option Locs).isSome) ∧ T9.modify = none ∧
    (∃ tChk tAr res,
      check_task T9 = .ok tChk ∧
      check_task (arsampleTaskOf T9 none 2) = .ok tAr ∧
      tChk.X_t = T9.X_t ∧
      tAr.X_t.getD 0 [] = arSubsetLocs T9 none 2 ∧
      ar_sample M0 T9 2 none 2 = .ok res ∧
      res.length = 2 ∧
      ∀ i, i < 2 →
        res.getD i [] =
          (if M0.isConvCNP then
             M0.predictMean (extendContext0 tChk (arSubsetLocs T9 none 2)
               ((M0.arSampleRaw tAr 2).getD i []))
           else
             M0.jointSample1 (extendContext0 tChk (arSubsetLocs T9 none 2)
               ((M0.arSampleRaw tAr 2).getD i []))) ∧
        (extendContext0 tChk (arSubsetLocs T9 none 2)
            ((M0.arSampleRaw tAr 2).getD i [])).X_t = T9.X_t ∧
        (extendContext0 tChk (arSubsetLocs T9 none 2)
            ((M0.arSampleRaw tAr 2).getD i [])).X_c.getD 0 [] =
          T9.X_c.getD 0 [] ++ arSubsetLocs T9 none 2 ∧
        (extendContext0 tChk (arSubsetLocs T9 none 2)
            ((M0.arSampleRaw tAr 2).getD i [])).Y_c.getD 0 [] =
          T9.Y_c.getD 0 [] ++ (M0.arSampleRaw tAr 2).getD i [] ∧
        (res.getD i []).length = (T9.X_t.getD 0 []).length) :=
  ⟨Or.inl (by decide), rfl,
   ar_sample_infill_spec M0 T9 2 none 2 (Or.inl (by decide)) (Or.inl rfl)
     (by simp [T9]) (by simp [T9]) (by simp [T9])
     (by intro t'; simp [M0]) (by intro t'; simp [M0]) (by intro t'; simp [M0])⟩

/-! ### Frame lemmas for the store-instrumented embedding -/

lemma store_get_alloc (σ : Store) (t : Task) (r : ℕ) (h : r < σ.length) :
    getT (σ ++ [t]) r = getT σ r := by
  unfold getT
  simp [List.getD_eq_getElem?_getD, List.getElem?_append, h]

lemma store_get_set_ne (σ : Store) (j : ℕ) (t : Task) (r : ℕ) (h : r ≠ j) :
    getT (setT σ j t) r = getT σ r := by
  unfold getT setT
  simp [List.getD_eq_getElem?_getD, List.getElem?_set_ne (Ne.symm h)]

lemma setT_length (σ : Store) (j : ℕ) (t : Task) :
    (setT σ j t).length = σ.length := by
  simp [setT]

lemma check_taskH_fst_cases (σ : Store) (j : ℕ) :
    (check_taskH σ j).1 = σ ∨
      (check_taskH σ j).1 = σ ++ [modify_task (getT σ j)] := by
  unfold check_taskH allocT
  cases (getT σ j).modify with
  | none => right; rfl
  | some tag =>
    by_cases h : tag = "NPS"
    · left; simp [h]
    · left; simp [h]

lemma check_taskH_get (σ : Store) (j r : ℕ) (h : r < σ.length) :
    getT (check_taskH σ j).1 r = getT σ r := by
  rcases check_taskH_fst_cases σ j with hc | hc
  · rw [hc]
  · rw [hc]; exact store_get_alloc σ _ r h

lemma check_taskH_len (σ : Store) (j : ℕ) :
    σ.length ≤ (check_taskH σ j).1.length := by
  rcases check_taskH_fst_cases σ j with hc | hc <;> rw [hc] <;> simp

lemma loopStepStore_get (σ : Store) (r_task : ℕ) (arXt : Locs)
    (sample : Vals) (r : ℕ) (h : r < σ.length) :
    getT (loopStepStore σ r_task arXt sample) r = getT σ r := by
  unfold loopStepStore allocT
  have hne : r ≠ σ.length := by omega
  rw [store_get_set_ne _ _ _ r hne, store_get_set_ne _ _ _ r hne,
    store_get_alloc σ _ r h]

lemma loopStepStore_length (σ : Store) (r_task : ℕ) (arXt : Locs)
    (sample : Vals) :
    (loopStepStore σ r_task arXt sample).length = σ.length + 1 := by
  unfold loopStepStore allocT
  simp [setT]

lemma arInfillLoopH_frame (m : NPModel) (r_task : ℕ) (arXt : Locs) :
    ∀ (samples : List Vals) (σ : Store) (r : ℕ), r < σ.length →
      getT (arInfillLoopH m σ r_task arXt samples).1 r = getT σ r := by
  intro samples
  induction samples with
  | nil => intro σ r hr; rfl
  | cons s rest ih =>
    intro σ r hr
    have e : (arInfillLoopH m σ r_task arXt (s :: rest)).1 =
        (arInfillLoopH m (loopStepStore σ r_task arXt s) r_task arXt rest).1 :=
      rfl
    rw [e, ih (loopStepStore σ r_task arXt s) r
        (by rw [loopStepStore_length]; omega),
      loopStepStore_get σ r_task arXt s r hr]

lemma arsampleStoreOf_get (σ : Store) (r_task : ℕ) (xtar : Option Locs)
    (k : ℕ) (r : ℕ) (h : r < σ.length) :
    getT (arsampleStoreOf σ r_task xtar k) r = getT σ r := by
  have hne : r ≠ σ.length := by omega
  cases xtar with
  | some locs =>
    simp only [arsampleStoreOf, allocT]
    rw [store_get_set_ne _ _ _ r hne, store_get_alloc σ _ r h]
  | none =>
    by_cases hk : 1 < k
    · simp only [arsampleStoreOf, allocT, if_pos hk]
      rw [store_get_set_ne _ _ _ r hne, store_get_alloc σ _ r h]
    · simp only [arsampleStoreOf, allocT, if_neg hk]
      exact store_get_alloc σ _ r h

lemma arsampleStoreOf_len (σ : Store) (r_task : ℕ) (xtar : Option Locs)
    (k : ℕ) : σ.length ≤ (arsampleStoreOf σ r_task xtar k).length := by
  cases xtar with
  | some locs => simp only [arsampleStoreOf, allocT]; simp [setT]
  | none =>
    by_cases hk : 1 < k
    · simp only [arsampleStoreOf, allocT, if_pos hk]; simp [setT]
    · simp only [arsampleStoreOf, allocT, if_neg hk]; simp

lemma ar_sampleH_rest_frame (m : NPModel) (σ2 : Store) (r_task r_ars : ℕ)
    (n : ℕ) (xtar : Option Locs) (k : ℕ) (r : ℕ) (h : r < σ2.length) :
    getT (ar_sampleH_rest m σ2 r_task r_ars n xtar k).1 r = getT σ2 r := by
  have h3 : r < (check_taskH σ2 r_ars).1.length :=
    lt_of_lt_of_le h (check_taskH_len σ2 r_ars)
  have h4 : r < (check_taskH (check_taskH σ2 r_ars).1 r_task).1.length :=
    lt_of_lt_of_le h3 (check_taskH_len _ r_task)
  have g3 : getT (check_taskH σ2 r_ars).1 r = getT σ2 r :=
    check_taskH_get σ2 r_ars r h
  have g4 : getT (check_taskH (check_taskH σ2 r_ars).1 r_task).1 r =
      getT σ2 r :=
    (check_taskH_get _ r_task r h3).trans g3
  unfold ar_sampleH_rest
  rcases hA : (check_taskH σ2 r_ars).2 with e | rA
  · simp only [hA]
    exact g3
  · simp only [hA]
    rcases hB : (check_taskH (check_taskH σ2 r_ars).1 r_task).2 with e | rB
    · simp only [hB]
      exact g4
    · simp only [hB]
      by_cases hc : 1 < k ∨ xtar.isSome
      · simp only [if_pos hc]
        exact (arInfillLoopH_frame m _ _ _ _ r h4).trans g4
      · simp only [if_neg hc]
        exact g4

/-- C4: no acquisition or AR-sampling call writes the caller's task object.
Over the explicit object store, `ar_sample`, the parallel `Stddev` and
`ExpectedImprovement` acquisition calls, and the scalar `MeanStddev` call
leave the task behind the caller's reference exactly as it was: every
in-place assignment of the source targets a freshly allocated deep copy (or
the fresh task returned by `Task.modify`). -/
theorem caller_task_not_mutated :
    (∀ (m : NPModel) (σ : Store) (r n : ℕ) (xtar : Option Locs) (k : ℕ),
      r < σ.length → getT (ar_sampleH m σ r n xtar k).1 r = getT σ r) ∧
    (∀ (m : NPModel) (σ : Store) (r : ℕ) (Xs : Locs) (tsi : ℕ),
      r < σ.length → getT (Stddev_callH m σ r Xs tsi).1 r = getT σ r) ∧
    (∀ (m : NPModel) (csi : ℕ) (σ : Store) (r : ℕ) (Xs : Locs) (tsi : ℕ),
      r < σ.length →
        getT (ExpectedImprovement_callH m csi σ r Xs tsi).1 r = getT σ r) ∧
    (∀ (m : NPModel) (σ : Store) (r tsi : ℕ),
      getT (MeanStddev_callH m σ r tsi).1 r = getT σ r) := by
  refine ⟨?_, ?_, ?_, ?_⟩
  · intro m σ r n xtar k hr
    unfold ar_sampleH
    rw [ar_sampleH_rest_frame m _ r _ n xtar k r
        (lt_of_lt_of_le hr (arsampleStoreOf_len σ r xtar k))]
    exact arsampleStoreOf_get σ r xtar k r hr
  · intro m σ r Xs tsi hr
    show getT (setT ((allocT σ (getT σ r)).1) ((allocT σ (getT σ r)).2) _) r =
      getT σ r
    unfold allocT
    rw [store_get_set_ne _ _ _ r (by omega)]
    exact store_get_alloc σ _ r hr
  · intro m csi σ r Xs tsi hr
    show getT (setT ((allocT σ (getT σ r)).1) ((allocT σ (getT σ r)).2) _) r =
      getT σ r
    unfold allocT
    rw [store_get_set_ne _ _ _ r (by omega)]
    exact store_get_alloc σ _ r hr
  · intro m σ r tsi
    rfl

/-- Witness for C4 on a one-object store holding the concrete task. -/
theorem caller_task_not_mutated_w :
    0 < ([T2] : Store).length ∧
    getT (ar_sampleH M0 [T2] 0 1 none 2).1 0 = getT [T2] 0 ∧
    getT (Stddev_callH M0 [T2] 0 Xs4 0).1 0 = getT [T2] 0 ∧
    getT (ExpectedImprovement_callH M0 0 [T2] 0 Xs4 0).1 0 = getT [T2] 0 ∧
    getT (MeanStddev_callH M0 [T2] 0 0).1 0 = getT [T2] 0 :=
  ⟨by simp,
   caller_task_not_mutated.1 M0 [T2] 0 1 none 2 (by simp),
   caller_task_not_mutated.2.1 M0 [T2] 0 Xs4 0 (by simp),
   caller_task_not_mutated.2.2.1 M0 0 [T2] 0 Xs4 0 (by simp),
   caller_task_not_mutated.2.2.2 M0 [T2] 0 0⟩

end DeepSensor
